import Mathlib

/-!
# CIPster `SockAddr` (src/enet_encap/sockaddr.h)

A shallow embedding of class `SockAddr`, the wrapper around the platform's
`sockaddr_in`, together with the platform primitives it calls
(`htons`, `htonl`, `ntohs`, `ntohl`, `memcmp`).

Machine integers are natural numbers; every store into a fixed-width field
reduces modulo the field's width.  The host byte order is a parameter of
every operation that depends on it, and so is the platform constant
`AF_INET`.
-/

namespace CIPster

/-! ## Platform model -/

/-- Byte order of the executing machine. -/
inductive Endian where
  | little
  | big
  deriving DecidableEq

/-- Byte reversal of a 16-bit value, as the C library does it with shifts and masks. -/
def bswap16 (x : Nat) : Nat :=
  ((x >>> 8) &&& 0xff) ||| ((x &&& 0xff) <<< 8)

/-- Byte reversal of a 32-bit value, as the C library does it with shifts and masks. -/
def bswap32 (x : Nat) : Nat :=
  ((x &&& 0xff000000) >>> 24) ||| ((x &&& 0x00ff0000) >>> 8) |||
    ((x &&& 0x0000ff00) <<< 8) ||| ((x &&& 0x000000ff) <<< 24)

/-- Host to network order, `uint16_t htons(uint16_t)`: the argument is converted to
16 bits at the call; a little-endian host swaps the bytes, a big-endian host does not. -/
def htons (e : Endian) (hostshort : Nat) : Nat :=
  match e with
  | .little => bswap16 (hostshort % 2 ^ 16)
  | .big => hostshort % 2 ^ 16

/-- Network to host order, `uint16_t ntohs(uint16_t)`. -/
def ntohs (e : Endian) (netshort : Nat) : Nat :=
  match e with
  | .little => bswap16 (netshort % 2 ^ 16)
  | .big => netshort % 2 ^ 16

/-- Host to network order, `uint32_t htonl(uint32_t)`. -/
def htonl (e : Endian) (hostlong : Nat) : Nat :=
  match e with
  | .little => bswap32 (hostlong % 2 ^ 32)
  | .big => hostlong % 2 ^ 32

/-- Network to host order, `uint32_t ntohl(uint32_t)`. -/
def ntohl (e : Endian) (netlong : Nat) : Nat :=
  match e with
  | .little => bswap32 (netlong % 2 ^ 32)
  | .big => netlong % 2 ^ 32

/-- The bytes, in increasing address order, that hold the 16-bit value `v` in the
memory of a host with byte order `e`. -/
def storeBytes16 (e : Endian) (v : Nat) : List Nat :=
  match e with
  | .little => [v % 256, v / 256 % 256]
  | .big => [v / 256 % 256, v % 256]

/-- The bytes, in increasing address order, that hold the 32-bit value `v` in the
memory of a host with byte order `e`. -/
def storeBytes32 (e : Endian) (v : Nat) : List Nat :=
  match e with
  | .little => [v % 256, v / 256 % 256, v / 65536 % 256, v / 16777216 % 256]
  | .big => [v / 16777216 % 256, v / 65536 % 256, v / 256 % 256, v % 256]

/-- Byte-wise comparison of two byte strings of the same length: zero when they
agree, otherwise the difference of the first pair of bytes that differ. -/
def cmpBytes : List Nat → List Nat → Int
  | a :: as, b :: bs => if a = b then cmpBytes as bs else (a : Int) - (b : Int)
  | _, _ => 0

/-- The call `memcmp(&obj[p], &obj[q], n)` on an array `obj`: it reads the `n` bytes
from offset `p` and the `n` bytes from offset `q`.  The result is `none` when one
of the two ranges leaves the array. -/
def memcmp (obj : List Nat) (p q n : Nat) : Option Int :=
  if p + n ≤ obj.length ∧ q + n ≤ obj.length then
    some (cmpBytes ((obj.drop p).take n) ((obj.drop q).take n))
  else
    none

/-- The wildcard address; the source notes "INADDR_ANY is zero". -/
def INADDR_ANY : Nat := 0

/-! ## Data model -/

/-- The platform's `struct in_addr`: one 32-bit field, network byte order. -/
structure in_addr where
  s_addr : Nat
  deriving DecidableEq

/-- The platform's `struct sockaddr_in`: a 16-bit family tag, a 16-bit port and a
32-bit address (both in network byte order) and 8 reserved bytes. -/
structure sockaddr_in where
  sin_family : Nat
  sin_port : Nat
  sin_addr : in_addr
  sin_zero : List Nat
  deriving DecidableEq

/-- The values of the fields fit their widths: what a `sockaddr_in` in memory can hold. -/
def sockaddr_in.WF (s : sockaddr_in) : Prop :=
  s.sin_family < 2 ^ 16 ∧ s.sin_port < 2 ^ 16 ∧ s.sin_addr.s_addr < 2 ^ 32 ∧
    s.sin_zero.length = 8 ∧ ∀ b ∈ s.sin_zero, b < 256

instance (s : sockaddr_in) : Decidable s.WF := by
  unfold sockaddr_in.WF
  infer_instance

/-- Class `SockAddr`: its only data member is `sa`. -/
structure SockAddr where
  sa : sockaddr_in
  deriving DecidableEq

namespace SockAddr

/-! ## Operations -/

/-- Modelled from the spec: the constructor `SockAddr( unsigned aPort = 0,
unsigned aIP = INADDR_ANY )` is only declared in the header; its body is not among
the sources.  The spec: "builds a record with family implicitly set to IPv4,
storing port/address converted to network order", and for the default record
"family set, padding zero". -/
def New (AF_INET : Nat) (e : Endian) (aPort : Nat) (aIP : Nat) : SockAddr :=
  { sa :=
      { sin_family := AF_INET
        sin_port := htons e aPort
        sin_addr := { s_addr := htonl e aIP }
        sin_zero := [0, 0, 0, 0, 0, 0, 0, 0] } }

/-- Source: `SockAddr( const sockaddr_in& aSockAddr ) : sa( aSockAddr ) {}` -/
def ofSockaddrIn (aSockAddr : sockaddr_in) : SockAddr :=
  { sa := aSockAddr }

/-- Source: `SockAddr& operator=( const sockaddr_in& rhs ) { sa = rhs; return *this; }` -/
def assign (self : SockAddr) (rhs : sockaddr_in) : SockAddr :=
  { self with sa := rhs }

/-- Source: `bool operator==( const SockAddr& other ) const` -/
def operator_eq (self other : SockAddr) : Bool :=
  self.sa.sin_addr.s_addr == other.sa.sin_addr.s_addr
    && self.sa.sin_port == other.sa.sin_port

/-- Source: `bool operator!=( const SockAddr& other ) const  { return !(*this == other); }` -/
def operator_ne (self other : SockAddr) : Bool :=
  !(operator_eq self other)

/-- Source: `operator const sockaddr_in& () const    { return sa; }` -/
def toSockaddrIn (self : SockAddr) : sockaddr_in :=
  self.sa

/-- Source: `SetFamily( unsigned aFamily )   { sa.sin_family = aFamily; return *this; }`:
the store converts to the 16-bit `sin_family`. -/
def SetFamily (self : SockAddr) (aFamily : Nat) : SockAddr :=
  { self with sa := { self.sa with sin_family := aFamily % 2 ^ 16 } }

/-- Source: `SetPort( unsigned aPort )       { sa.sin_port = htons( aPort ); return *this; }` -/
def SetPort (e : Endian) (self : SockAddr) (aPort : Nat) : SockAddr :=
  { self with sa := { self.sa with sin_port := htons e aPort } }

/-- Source: `SetAddr( unsigned aIPAddr )     { sa.sin_addr.s_addr = htonl( aIPAddr ); return *this; }` -/
def SetAddr (e : Endian) (self : SockAddr) (aIPAddr : Nat) : SockAddr :=
  { self with sa := { self.sa with sin_addr := { s_addr := htonl e aIPAddr } } }

/-- Source: `unsigned Family() const     { return sa.sin_family; }` -/
def Family (self : SockAddr) : Nat :=
  self.sa.sin_family

/-- Source: `unsigned Port() const       { return ntohs( sa.sin_port ); }` -/
def Port (e : Endian) (self : SockAddr) : Nat :=
  ntohs e self.sa.sin_port

/-- Source: `unsigned Addr() const       { return ntohl( sa.sin_addr.s_addr ); }` -/
def Addr (e : Endian) (self : SockAddr) : Nat :=
  ntohl e self.sa.sin_addr.s_addr

/-- Source: `IsValid()`: `sa.sin_family == AF_INET && !memcmp( &sa.sin_zero[0], &sa.sin_zero[1], 7 )
&& !sa.sin_zero[0]`, with the short-circuit evaluation of `&&`.  Reads of the padding
array are checked: the result is `none` when a read leaves the array. -/
def IsValid (AF_INET : Nat) (self : SockAddr) : Option Bool :=
  if self.sa.sin_family = AF_INET then
    match memcmp self.sa.sin_zero 0 1 7 with
    | none => none
    | some c =>
      if c = 0 then
        match self.sa.sin_zero[0]? with
        | none => none
        | some z => some (z == 0)
      else
        some false
  else
    some false

/-- Source: `IsMulticast()`: `return (0xf0000000 & Addr()) == 0xe0000000;` -/
def IsMulticast (e : Endian) (self : SockAddr) : Bool :=
  (0xf0000000 &&& Addr e self) == 0xe0000000

end SockAddr

/-! ## The padding check, as the code makes it and as the spec words it -/

/-- The padding part of `IsValid`, as the code makes it:
`!memcmp( &sa.sin_zero[0], &sa.sin_zero[1], 7 ) && !sa.sin_zero[0]` on the array `z`,
with checked reads and the short-circuit evaluation of `&&`. -/
def paddingCheck (z : List Nat) : Option Bool :=
  match memcmp z 0 1 7 with
  | none => none
  | some c =>
    if c = 0 then
      match z[0]? with
      | none => none
      | some z0 => some (z0 == 0)
    else
      some false

/-- The simpler check in the spec's words: "all 8 bytes zero". -/
def specAllBytesZero (z : List Nat) : Bool :=
  z.all (fun b => b == 0)

/-- The validity predicate in the spec's words: "family == IPv4-tag AND all 8 padding
bytes are zero". -/
def specIsValid (AF_INET : Nat) (self : SockAddr) : Bool :=
  self.sa.sin_family == AF_INET && specAllBytesZero self.sa.sin_zero

/-! ## Sample records -/

/-- A valid record on a little-endian host whose `AF_INET` is 2: family 2, zero
padding, then `SetPort( 44818 )` and `SetAddr( 0xC0A80001 )` (192.168.0.1). -/
def sample : SockAddr :=
  ((SockAddr.ofSockaddrIn
      { sin_family := 2
        sin_port := 0
        sin_addr := { s_addr := 0 }
        sin_zero := [0, 0, 0, 0, 0, 0, 0, 0] }).SetPort Endian.little 44818).SetAddr
    Endian.little 0xC0A80001

/-- A record holding the same stored port and address as `sample`, with another
family tag and a nonzero padding byte. -/
def garbage : SockAddr :=
  { sa :=
      { sin_family := 10
        sin_port := 0x12AF
        sin_addr := { s_addr := 0x0100A8C0 }
        sin_zero := [0, 0, 0, 7, 0, 0, 0, 0] } }

/-! ## Arithmetic of the platform primitives -/

/-- Masking with a shifted block of `n` ones selects a digit in base `2 ^ n`. -/
theorem and_shifted_ones (x k n : Nat) :
    x &&& ((2 ^ n - 1) * 2 ^ k) = (x / 2 ^ k % 2 ^ n) * 2 ^ k := by
  apply Nat.eq_of_testBit_eq
  intro i
  rw [Nat.testBit_and, Nat.mul_comm (2 ^ n - 1), Nat.mul_comm _ (2 ^ k),
    Nat.testBit_mul_pow_two, Nat.testBit_mul_pow_two, Nat.testBit_two_pow_sub_one,
    Nat.testBit_mod_two_pow, ← Nat.shiftRight_eq_div_pow, Nat.testBit_shiftRight]
  by_cases h : k ≤ i
  · have : k + (i - k) = i := by omega
    simp [h, this, Bool.and_comm]
  · simp [h]

theorem bswap16_eq (x : Nat) : bswap16 x = x / 256 % 256 + x % 256 * 256 := by
  have h1 : x &&& 0xff = x % 256 := Nat.and_pow_two_sub_one_eq_mod x 8
  have h2 : (x >>> 8) &&& 0xff = x / 256 % 256 := by
    rw [Nat.shiftRight_eq_div_pow]
    exact Nat.and_pow_two_sub_one_eq_mod (x / 2 ^ 8) 8
  have h3 : x / 256 % 256 < 2 ^ 8 := by omega
  have h4 := Nat.mul_add_lt_is_or h3 (x % 256)
  unfold bswap16
  rw [h1, h2, Nat.shiftLeft_eq, Nat.or_comm, Nat.mul_comm, ← h4]
  omega

theorem or_shifted_eq_add (i a b : Nat) (h : b < 2 ^ i) : b ||| a * 2 ^ i = b + a * 2 ^ i := by
  rw [Nat.or_comm, Nat.mul_comm, ← Nat.mul_add_lt_is_or h a, Nat.add_comm]

theorem bswap32_eq (x : Nat) :
    bswap32 x = x / 16777216 % 256 + x / 65536 % 256 * 256 + x / 256 % 256 * 65536
      + x % 256 * 16777216 := by
  have h0 : x &&& 0x000000ff = x % 256 := Nat.and_pow_two_sub_one_eq_mod x 8
  have h1 : x &&& 0x0000ff00 = x / 256 % 256 * 256 := and_shifted_ones x 8 8
  have h2 : x &&& 0x00ff0000 = x / 65536 % 256 * 65536 := and_shifted_ones x 16 8
  have h3 : x &&& 0xff000000 = x / 16777216 % 256 * 16777216 := and_shifted_ones x 24 8
  unfold bswap32
  rw [h0, h1, h2, h3]
  simp only [Nat.shiftLeft_eq, Nat.shiftRight_eq_div_pow]
  have e1 : x / 16777216 % 256 * 16777216 / 2 ^ 24 = x / 16777216 % 256 := by omega
  have e2 : x / 65536 % 256 * 65536 / 2 ^ 8 = x / 65536 % 256 * 2 ^ 8 := by omega
  have e3 : x / 256 % 256 * 256 * 2 ^ 8 = x / 256 % 256 * 2 ^ 16 := by omega
  rw [e1, e2, e3]
  rw [or_shifted_eq_add 8 _ _ (by omega), or_shifted_eq_add 16 _ _ (by omega),
    or_shifted_eq_add 24 _ _ (by omega)]
  omega

theorem bswap16_lt (x : Nat) : bswap16 x < 2 ^ 16 := by
  rw [bswap16_eq]; omega

theorem bswap32_lt (x : Nat) : bswap32 x < 2 ^ 32 := by
  rw [bswap32_eq]; omega

/-- Digits of a number written with four base-256 digits. -/
theorem digits256 (a b c d : Nat) (ha : a < 256) (hb : b < 256) (hc : c < 256) :
    (a + b * 256 + c * 65536 + d * 16777216) % 256 = a
      ∧ (a + b * 256 + c * 65536 + d * 16777216) / 256 % 256 = b
      ∧ (a + b * 256 + c * 65536 + d * 16777216) / 65536 % 256 = c
      ∧ (a + b * 256 + c * 65536 + d * 16777216) / 16777216 = d := by
  refine ⟨by omega, ?_, ?_, by omega⟩
  · have : (a + b * 256 + c * 65536 + d * 16777216) / 256 = b + c * 256 + d * 65536 := by omega
    rw [this]; omega
  · have : (a + b * 256 + c * 65536 + d * 16777216) / 65536 = c + d * 256 := by omega
    rw [this]; omega

theorem bswap16_bswap16 (x : Nat) (h : x < 2 ^ 16) : bswap16 (bswap16 x) = x := by
  rw [bswap16_eq, bswap16_eq]
  have h1 : (x / 256 % 256 + x % 256 * 256) / 256 = x % 256 := by omega
  have h2 : (x / 256 % 256 + x % 256 * 256) % 256 = x / 256 % 256 := by omega
  rw [h1, h2]
  omega

theorem bswap32_bswap32 (x : Nat) (h : x < 2 ^ 32) : bswap32 (bswap32 x) = x := by
  rw [bswap32_eq, bswap32_eq]
  obtain ⟨d0, d1, d2, d3⟩ := digits256 (x / 16777216 % 256) (x / 65536 % 256) (x / 256 % 256)
    (x % 256) (by omega) (by omega) (by omega)
  have d3m : (x / 16777216 % 256 + x / 65536 % 256 * 256 + x / 256 % 256 * 65536
      + x % 256 * 16777216) / 16777216 % 256 = x % 256 := by
    rw [d3]; omega
  rw [d0, d1, d2, d3m]
  clear d0 d1 d2 d3 d3m
  omega

theorem htons_lt (e : Endian) (x : Nat) : htons e x < 2 ^ 16 := by
  cases e <;> simp only [htons]
  · exact bswap16_lt _
  · omega

theorem htonl_lt (e : Endian) (x : Nat) : htonl e x < 2 ^ 32 := by
  cases e <;> simp only [htonl]
  · exact bswap32_lt _
  · omega

theorem ntohs_lt (e : Endian) (x : Nat) : ntohs e x < 2 ^ 16 := by
  cases e <;> simp only [ntohs]
  · exact bswap16_lt _
  · omega

theorem ntohl_lt (e : Endian) (x : Nat) : ntohl e x < 2 ^ 32 := by
  cases e <;> simp only [ntohl]
  · exact bswap32_lt _
  · omega

theorem ntohs_htons (e : Endian) (x : Nat) : ntohs e (htons e x) = x % 2 ^ 16 := by
  cases e <;> simp only [ntohs, htons]
  · rw [Nat.mod_eq_of_lt (bswap16_lt _)]
    exact bswap16_bswap16 _ (Nat.mod_lt _ (by decide))
  · exact Nat.mod_mod _ _

theorem ntohl_htonl (e : Endian) (x : Nat) : ntohl e (htonl e x) = x % 2 ^ 32 := by
  cases e <;> simp only [ntohl, htonl]
  · rw [Nat.mod_eq_of_lt (bswap32_lt _)]
    exact bswap32_bswap32 _ (Nat.mod_lt _ (by decide))
  · exact Nat.mod_mod _ _

theorem htons_ntohs (e : Endian) (x : Nat) : htons e (ntohs e x) = x % 2 ^ 16 := by
  cases e <;> simp only [ntohs, htons]
  · rw [Nat.mod_eq_of_lt (bswap16_lt _)]
    exact bswap16_bswap16 _ (Nat.mod_lt _ (by decide))
  · exact Nat.mod_mod _ _

theorem htonl_ntohl (e : Endian) (x : Nat) : htonl e (ntohl e x) = x % 2 ^ 32 := by
  cases e <;> simp only [ntohl, htonl]
  · rw [Nat.mod_eq_of_lt (bswap32_lt _)]
    exact bswap32_bswap32 _ (Nat.mod_lt _ (by decide))
  · exact Nat.mod_mod _ _

/-- The mask test of `IsMulticast` as arithmetic. -/
theorem mask_high_nibble (a : Nat) : 0xf0000000 &&& a = a / 268435456 % 16 * 268435456 := by
  rw [Nat.and_comm]
  exact and_shifted_ones a 28 4

/-! ## Padding -/

theorem length_eq_eight {l : List Nat} (h : l.length = 8) :
    ∃ z0 z1 z2 z3 z4 z5 z6 z7, l = [z0, z1, z2, z3, z4, z5, z6, z7] := by
  match l, h with
  | [z0, z1, z2, z3, z4, z5, z6, z7], _ => exact ⟨z0, z1, z2, z3, z4, z5, z6, z7, rfl⟩

/-- All eight positions hold zero exactly when the array is the zero array. -/
theorem all_zero_iff (z0 z1 z2 z3 z4 z5 z6 z7 : Nat) :
    (∀ i, i < 8 → [z0, z1, z2, z3, z4, z5, z6, z7][i]? = some 0)
      ↔ z0 = 0 ∧ z1 = 0 ∧ z2 = 0 ∧ z3 = 0 ∧ z4 = 0 ∧ z5 = 0 ∧ z6 = 0 ∧ z7 = 0 := by
  constructor
  · intro h
    have h0 := h 0 (by omega)
    have h1 := h 1 (by omega)
    have h2 := h 2 (by omega)
    have h3 := h 3 (by omega)
    have h4 := h 4 (by omega)
    have h5 := h 5 (by omega)
    have h6 := h 6 (by omega)
    have h7 := h 7 (by omega)
    simp at h0 h1 h2 h3 h4 h5 h6 h7
    exact ⟨h0, h1, h2, h3, h4, h5, h6, h7⟩
  · rintro ⟨rfl, rfl, rfl, rfl, rfl, rfl, rfl, rfl⟩ i hi
    interval_cases i <;> rfl

/-- The overlapping comparison of `IsValid` on an 8-byte array. -/
theorem memcmp_padding (z0 z1 z2 z3 z4 z5 z6 z7 : Nat) :
    ∃ c, memcmp [z0, z1, z2, z3, z4, z5, z6, z7] 0 1 7 = some c ∧
      (c = 0 ↔ z0 = z1 ∧ z1 = z2 ∧ z2 = z3 ∧ z3 = z4 ∧ z4 = z5 ∧ z5 = z6 ∧ z6 = z7) := by
  refine ⟨cmpBytes [z0, z1, z2, z3, z4, z5, z6] [z1, z2, z3, z4, z5, z6, z7], by simp [memcmp], ?_⟩
  simp only [cmpBytes]
  constructor
  · intro h
    split_ifs at h <;> omega
  · rintro ⟨h0, h1, h2, h3, h4, h5, h6⟩
    simp [h0, h1, h2, h3, h4, h5, h6]

/-- What `IsValid` computes on a record whose padding has 8 bytes. -/
theorem IsValid_eq (AF_INET : Nat) (r : SockAddr) (h : r.sa.sin_zero.length = 8) :
    ∃ b, r.IsValid AF_INET = some b ∧
      (b = true ↔ r.sa.sin_family = AF_INET ∧ ∀ i, i < 8 → r.sa.sin_zero[i]? = some 0) := by
  obtain ⟨z0, z1, z2, z3, z4, z5, z6, z7, hz⟩ := length_eq_eight h
  obtain ⟨c, hc, hc0⟩ := memcmp_padding z0 z1 z2 z3 z4 z5 z6 z7
  unfold SockAddr.IsValid
  rw [hz, hc, all_zero_iff]
  by_cases hf : r.sa.sin_family = AF_INET
  · by_cases hcz : c = 0
    · refine ⟨z0 == 0, by simp [hf, hcz], ?_⟩
      have := hc0.1 hcz
      simp [hf]
      omega
    · refine ⟨false, by simp [hf, hcz], ?_⟩
      have : ¬ (z0 = z1 ∧ z1 = z2 ∧ z2 = z3 ∧ z3 = z4 ∧ z4 = z5 ∧ z5 = z6 ∧ z6 = z7) :=
        fun hh => hcz (hc0.2 hh)
      simp [hf]
      omega
  · exact ⟨false, by simp [hf], by simp [hf]⟩

/-! ## The claims -/

/-- C1: `IsValid()` returns true if and only if the family field equals `AF_INET` and
each of the 8 padding bytes `sin_zero[0..7]` is zero, and it returns false in every
other case (another family value, or a nonzero byte at any of the 8 positions). -/
theorem IsValid_iff_family_and_zero_padding (AF_INET : Nat) (r : SockAddr) (h : r.sa.WF) :
    (r.IsValid AF_INET = some true ↔
        r.sa.sin_family = AF_INET ∧ ∀ i, i < 8 → r.sa.sin_zero[i]? = some 0)
      ∧ (r.IsValid AF_INET = some false ↔
        ¬ (r.sa.sin_family = AF_INET ∧ ∀ i, i < 8 → r.sa.sin_zero[i]? = some 0)) := by
  obtain ⟨b, hb, hiff⟩ := IsValid_eq AF_INET r h.2.2.2.1
  rw [hb]
  cases b
  · simp only [Option.some.injEq, Bool.false_eq_true, false_iff, true_iff] at hiff ⊢
    exact ⟨hiff, hiff⟩
  · simp only [Option.some.injEq, Bool.true_eq_false, false_iff, true_iff, not_not] at hiff ⊢
    exact ⟨hiff, hiff⟩

theorem IsValid_iff_family_and_zero_padding_witness :
    sample.sa.WF ∧ garbage.sa.WF ∧ sample.IsValid 2 = some true
      ∧ garbage.IsValid 2 = some false ∧ garbage.IsValid 10 = some false := by
  have hs : sample.sa.WF := by decide
  have hg : garbage.sa.WF := by decide
  refine ⟨hs, hg, ?_, ?_, ?_⟩
  · exact (IsValid_iff_family_and_zero_padding 2 sample hs).1.2 (by decide)
  · exact (IsValid_iff_family_and_zero_padding 2 garbage hg).2.2 (by decide)
  · exact (IsValid_iff_family_and_zero_padding 10 garbage hg).2.2 (by decide)

/-- C2: for every record, on a little-endian and on a big-endian host, and every
host-order port `p` with `0 ≤ p ≤ 65535`, `SetPort(p)` followed by `Port()` returns `p`. -/
theorem Port_SetPort (e : Endian) (r : SockAddr) (p : Nat) (hp : p ≤ 65535) :
    (r.SetPort e p).Port e = p := by
  simp only [SockAddr.Port, SockAddr.SetPort, ntohs_htons]
  omega

theorem Port_SetPort_witness :
    44818 ≤ 65535 ∧ (garbage.SetPort Endian.little 44818).Port Endian.little = 44818
      ∧ (garbage.SetPort Endian.big 44818).Port Endian.big = 44818 :=
  ⟨by decide, Port_SetPort Endian.little garbage 44818 (by decide),
    Port_SetPort Endian.big garbage 44818 (by decide)⟩

/-- C3: for every record, on a little-endian and on a big-endian host, and every
host-order address `a` with `0 ≤ a ≤ 2^32 - 1`, `SetAddr(a)` followed by `Addr()`
returns `a`. -/
theorem Addr_SetAddr (e : Endian) (r : SockAddr) (a : Nat) (ha : a ≤ 2 ^ 32 - 1) :
    (r.SetAddr e a).Addr e = a := by
  simp only [SockAddr.Addr, SockAddr.SetAddr, ntohl_htonl]
  omega

theorem Addr_SetAddr_witness :
    0xE0000001 ≤ 2 ^ 32 - 1
      ∧ (garbage.SetAddr Endian.little 0xE0000001).Addr Endian.little = 0xE0000001
      ∧ (garbage.SetAddr Endian.big 0xE0000001).Addr Endian.big = 0xE0000001 :=
  ⟨by decide, Addr_SetAddr Endian.little garbage 0xE0000001 (by decide),
    Addr_SetAddr Endian.big garbage 0xE0000001 (by decide)⟩

/-- The mask test agrees with the range test on every value. -/
theorem mask_test_iff_range (a : Nat) (ha : a < 2 ^ 32) :
    (0xf0000000 &&& a) = 0xe0000000 ↔ 0xE0000000 ≤ a ∧ a ≤ 0xEFFFFFFF := by
  rw [mask_high_nibble]
  omega

theorem IsMulticast_iff (e : Endian) (r : SockAddr) :
    r.IsMulticast e = true ↔ 0xE0000000 ≤ r.Addr e ∧ r.Addr e ≤ 0xEFFFFFFF := by
  have hlt : r.Addr e < 2 ^ 32 := ntohl_lt e _
  simp only [SockAddr.IsMulticast, beq_iff_eq]
  exact mask_test_iff_range _ hlt

theorem IsMulticast_SetAddr (e : Endian) (r : SockAddr) (a : Nat) (ha : a < 2 ^ 32) :
    (r.SetAddr e a).IsMulticast e = decide (0xE0000000 ≤ a ∧ a ≤ 0xEFFFFFFF) := by
  have h := IsMulticast_iff e (r.SetAddr e a)
  have hr : (r.SetAddr e a).Addr e = a := by
    simp only [SockAddr.Addr, SockAddr.SetAddr, ntohl_htonl]
    omega
  rw [hr] at h
  by_cases hc : 0xE0000000 ≤ a ∧ a ≤ 0xEFFFFFFF
  · rw [h.2 hc, decide_eq_true hc]
  · rw [decide_eq_false hc]
    cases hm : (r.SetAddr e a).IsMulticast e
    · rfl
    · exact absurd (h.1 hm) hc

/-- C4: `IsMulticast()` is true if and only if the host-order address `a = Addr()`
satisfies `0xE0000000 ≤ a ≤ 0xEFFFFFFF`; the mask test `(a & 0xF0000000) == 0xE0000000`
coincides with that range test for all 32-bit addresses; 223.255.255.255 and 240.0.0.0
are not multicast, 224.0.0.0, 224.0.0.1 and 239.255.255.255 are. -/
theorem IsMulticast_iff_range (e : Endian) (r : SockAddr) :
    (r.IsMulticast e = true ↔ 0xE0000000 ≤ r.Addr e ∧ r.Addr e ≤ 0xEFFFFFFF)
      ∧ (∀ a, a < 2 ^ 32 →
          ((0xf0000000 &&& a) = 0xe0000000 ↔ 0xE0000000 ≤ a ∧ a ≤ 0xEFFFFFFF))
      ∧ (r.SetAddr e 0xDFFFFFFF).IsMulticast e = false
      ∧ (r.SetAddr e 0xF0000000).IsMulticast e = false
      ∧ (r.SetAddr e 0xE0000000).IsMulticast e = true
      ∧ (r.SetAddr e 0xE0000001).IsMulticast e = true
      ∧ (r.SetAddr e 0xEFFFFFFF).IsMulticast e = true := by
  refine ⟨IsMulticast_iff e r, mask_test_iff_range, ?_, ?_, ?_, ?_, ?_⟩ <;>
    rw [IsMulticast_SetAddr e r _ (by decide)] <;> decide

theorem IsMulticast_iff_range_witness :
    (0xE0000001 < 2 ^ 32 ∧ (0xf0000000 &&& 0xE0000001) = 0xe0000000)
      ∧ (garbage.SetAddr Endian.big 0xF0000000).IsMulticast Endian.big = false :=
  ⟨⟨by decide,
      ((IsMulticast_iff_range Endian.big garbage).2.1 0xE0000001 (by decide)).2 (by decide)⟩,
    (IsMulticast_iff_range Endian.big garbage).2.2.2.1⟩

/-- C5: for every two records `x` and `y`, `x == y` holds if and only if
`x.Addr() == y.Addr()` and `x.Port() == y.Port()`; the family and the padding of either
record do not enter the comparison. -/
theorem operator_eq_iff_Addr_Port (e : Endian) (x y : SockAddr) (hx : x.sa.WF) (hy : y.sa.WF) :
    (x.operator_eq y = true ↔ x.Addr e = y.Addr e ∧ x.Port e = y.Port e)
      ∧ (x.operator_eq y = false ↔ x.Addr e ≠ y.Addr e ∨ x.Port e ≠ y.Port e)
      ∧ (∀ fx zx fy zy,
          SockAddr.operator_eq
            { sa := { x.sa with sin_family := fx, sin_zero := zx } }
            { sa := { y.sa with sin_family := fy, sin_zero := zy } } = x.operator_eq y) := by
  have key : x.operator_eq y = true ↔ x.Addr e = y.Addr e ∧ x.Port e = y.Port e := by
    simp only [SockAddr.operator_eq, Bool.and_eq_true, beq_iff_eq, SockAddr.Addr, SockAddr.Port]
    constructor
    · rintro ⟨ha, hp⟩
      rw [ha, hp]
      exact ⟨rfl, rfl⟩
    · rintro ⟨ha, hp⟩
      have ha2 := congrArg (htonl e) ha
      have hp2 := congrArg (htons e) hp
      rw [htonl_ntohl, htonl_ntohl] at ha2
      rw [htons_ntohs, htons_ntohs] at hp2
      obtain ⟨_, hxp, hxa, _⟩ := hx
      obtain ⟨_, hyp, hya, _⟩ := hy
      constructor <;> omega
  refine ⟨key, ?_, fun _ _ _ _ => rfl⟩
  rw [← not_and_or, ← key]
  cases x.operator_eq y <;> simp

theorem operator_eq_iff_Addr_Port_witness :
    sample.sa.WF ∧ garbage.sa.WF ∧ sample.operator_eq garbage = true
      ∧ (garbage.SetPort Endian.little 1).operator_eq garbage = false := by
  have hs : sample.sa.WF := by decide
  have hg : garbage.sa.WF := by decide
  have hg1 : (garbage.SetPort Endian.little 1).sa.WF := by decide
  refine ⟨hs, hg, ?_, ?_⟩
  · exact (operator_eq_iff_Addr_Port Endian.little sample garbage hs hg).1.2 (by decide)
  · exact (operator_eq_iff_Addr_Port Endian.little _ garbage hg1 hg).2.1.2 (by decide)

/-- C6: constructing a record from a native structure `raw`, or assigning `raw` to an
existing record, and converting back yields `raw` unchanged in every field; both are
total. -/
theorem toSockaddrIn_ofSockaddrIn (raw : sockaddr_in) (s : SockAddr) :
    (SockAddr.ofSockaddrIn raw).toSockaddrIn = raw
      ∧ (s.assign raw).toSockaddrIn = raw
      ∧ (SockAddr.ofSockaddrIn raw).toSockaddrIn.sin_family = raw.sin_family
      ∧ (SockAddr.ofSockaddrIn raw).toSockaddrIn.sin_port = raw.sin_port
      ∧ (SockAddr.ofSockaddrIn raw).toSockaddrIn.sin_addr.s_addr = raw.sin_addr.s_addr
      ∧ (SockAddr.ofSockaddrIn raw).toSockaddrIn.sin_zero = raw.sin_zero :=
  ⟨rfl, rfl, rfl, rfl, rfl, rfl⟩

theorem byte3 (a : Nat) : (a >>> 24) &&& 0xFF = a / 16777216 % 256 := by
  rw [Nat.shiftRight_eq_div_pow]
  exact Nat.and_pow_two_sub_one_eq_mod _ 8

theorem byte2 (a : Nat) : (a >>> 16) &&& 0xFF = a / 65536 % 256 := by
  rw [Nat.shiftRight_eq_div_pow]
  exact Nat.and_pow_two_sub_one_eq_mod _ 8

theorem byte1 (a : Nat) : (a >>> 8) &&& 0xFF = a / 256 % 256 := by
  rw [Nat.shiftRight_eq_div_pow]
  exact Nat.and_pow_two_sub_one_eq_mod _ 8

theorem byte0 (a : Nat) : a &&& 0xFF = a % 256 :=
  Nat.and_pow_two_sub_one_eq_mod _ 8

/-- The memory image of `htonl a` is the big-endian digit string of `a`, on either host. -/
theorem storeBytes32_htonl (e : Endian) (a : Nat) :
    storeBytes32 e (htonl e a)
      = [(a >>> 24) &&& 0xFF, (a >>> 16) &&& 0xFF, (a >>> 8) &&& 0xFF, a &&& 0xFF] := by
  rw [byte3, byte2, byte1, byte0]
  cases e
  · simp only [storeBytes32, htonl]
    rw [bswap32_eq]
    obtain ⟨d0, d1, d2, d3⟩ := digits256 (a % 2 ^ 32 / 16777216 % 256)
      (a % 2 ^ 32 / 65536 % 256) (a % 2 ^ 32 / 256 % 256) (a % 2 ^ 32 % 256)
      (by omega) (by omega) (by omega)
    rw [d0, d1, d2, d3]
    clear d0 d1 d2 d3
    have e0 : a % 2 ^ 32 % 256 % 256 = a % 256 := by omega
    have e1 : a % 2 ^ 32 / 256 % 256 = a / 256 % 256 := by omega
    have e2 : a % 2 ^ 32 / 65536 % 256 = a / 65536 % 256 := by omega
    have e3 : a % 2 ^ 32 / 16777216 % 256 = a / 16777216 % 256 := by omega
    rw [e0, e1, e2, e3]
  · simp only [storeBytes32, htonl]
    have e0 : a % 2 ^ 32 % 256 = a % 256 := by omega
    have e1 : a % 2 ^ 32 / 256 % 256 = a / 256 % 256 := by omega
    have e2 : a % 2 ^ 32 / 65536 % 256 = a / 65536 % 256 := by omega
    have e3 : a % 2 ^ 32 / 16777216 % 256 = a / 16777216 % 256 := by omega
    rw [e0, e1, e2, e3]

/-- The memory image of `htons p` is the big-endian digit string of `p`, on either host. -/
theorem storeBytes16_htons (e : Endian) (p : Nat) :
    storeBytes16 e (htons e p) = [(p >>> 8) &&& 0xFF, p &&& 0xFF] := by
  rw [byte1, byte0]
  cases e
  · simp only [storeBytes16, htons]
    rw [bswap16_eq]
    have hi : p % 2 ^ 16 / 256 % 256 = p / 256 % 256 := by omega
    have lo : p % 2 ^ 16 % 256 = p % 256 := by omega
    rw [hi, lo]
    have e0 : (p / 256 % 256 + p % 256 * 256) % 256 = p / 256 % 256 := by omega
    have e1 : (p / 256 % 256 + p % 256 * 256) / 256 = p % 256 := by omega
    rw [e0, e1]
    have e2 : p % 256 % 256 = p % 256 := by omega
    rw [e2]
  · simp only [storeBytes16, htons]
    have e0 : p % 2 ^ 16 % 256 = p % 256 := by omega
    have e1 : p % 2 ^ 16 / 256 % 256 = p / 256 % 256 := by omega
    rw [e0, e1]

theorem ntohl_of_storeBytes32 (e : Endian) (v b0 b1 b2 b3 : Nat) (hv : v < 2 ^ 32)
    (h : storeBytes32 e v = [b0, b1, b2, b3]) :
    ntohl e v = b0 * 2 ^ 24 + b1 * 2 ^ 16 + b2 * 2 ^ 8 + b3 := by
  cases e
  · simp only [storeBytes32, List.cons.injEq, and_true] at h
    obtain ⟨h0, h1, h2, h3⟩ := h
    simp only [ntohl]
    rw [bswap32_eq, Nat.mod_eq_of_lt hv, ← h0, ← h1, ← h2, ← h3]
    omega
  · simp only [storeBytes32, List.cons.injEq, and_true] at h
    obtain ⟨h0, h1, h2, h3⟩ := h
    simp only [ntohl]
    rw [Nat.mod_eq_of_lt hv, ← h0, ← h1, ← h2, ← h3]
    omega

theorem ntohs_of_storeBytes16 (e : Endian) (v c0 c1 : Nat) (hv : v < 2 ^ 16)
    (h : storeBytes16 e v = [c0, c1]) :
    ntohs e v = c0 * 2 ^ 8 + c1 := by
  cases e
  · simp only [storeBytes16, List.cons.injEq, and_true] at h
    obtain ⟨h0, h1⟩ := h
    simp only [ntohs]
    rw [bswap16_eq, Nat.mod_eq_of_lt hv, ← h0, ← h1]
    omega
  · simp only [storeBytes16, List.cons.injEq, and_true] at h
    obtain ⟨h0, h1⟩ := h
    simp only [ntohs]
    rw [Nat.mod_eq_of_lt hv, ← h0, ← h1]
    omega

/-- C7: on a little-endian and on a big-endian host, after `SetAddr(a)` the four address
bytes in memory order are `(a>>24)&0xFF, (a>>16)&0xFF, (a>>8)&0xFF, a&0xFF`, and after
`SetPort(p)` the two port bytes are `(p>>8)&0xFF, p&0xFF`; conversely, for a record whose
stored bytes are `b0 b1 b2 b3` and `c0 c1`, `Addr()` returns
`b0*2^24 + b1*2^16 + b2*2^8 + b3` and `Port()` returns `c0*2^8 + c1`. -/
theorem stored_bytes_network_order (e : Endian) (r : SockAddr) (a p : Nat)
    (b0 b1 b2 b3 c0 c1 : Nat) (hr : r.sa.WF)
    (hb : storeBytes32 e r.sa.sin_addr.s_addr = [b0, b1, b2, b3])
    (hc : storeBytes16 e r.sa.sin_port = [c0, c1]) :
    storeBytes32 e (r.SetAddr e a).sa.sin_addr.s_addr
        = [(a >>> 24) &&& 0xFF, (a >>> 16) &&& 0xFF, (a >>> 8) &&& 0xFF, a &&& 0xFF]
      ∧ storeBytes16 e (r.SetPort e p).sa.sin_port = [(p >>> 8) &&& 0xFF, p &&& 0xFF]
      ∧ r.Addr e = b0 * 2 ^ 24 + b1 * 2 ^ 16 + b2 * 2 ^ 8 + b3
      ∧ r.Port e = c0 * 2 ^ 8 + c1 :=
  ⟨storeBytes32_htonl e a, storeBytes16_htons e p,
    ntohl_of_storeBytes32 e _ b0 b1 b2 b3 hr.2.2.1 hb,
    ntohs_of_storeBytes16 e _ c0 c1 hr.2.1 hc⟩

theorem stored_bytes_network_order_witness :
    garbage.sa.WF
      ∧ storeBytes32 Endian.little garbage.sa.sin_addr.s_addr = [0xC0, 0xA8, 0x00, 0x01]
      ∧ storeBytes16 Endian.little garbage.sa.sin_port = [0xAF, 0x12]
      ∧ storeBytes32 Endian.little (garbage.SetAddr Endian.little 0xE0000001).sa.sin_addr.s_addr
          = [(0xE0000001 >>> 24) &&& 0xFF, (0xE0000001 >>> 16) &&& 0xFF,
              (0xE0000001 >>> 8) &&& 0xFF, 0xE0000001 &&& 0xFF]
      ∧ garbage.Addr Endian.little = 0xC0 * 2 ^ 24 + 0xA8 * 2 ^ 16 + 0x00 * 2 ^ 8 + 0x01
      ∧ garbage.Port Endian.little = 0xAF * 2 ^ 8 + 0x12 := by
  have h := stored_bytes_network_order Endian.little garbage 0xE0000001 44818
    0xC0 0xA8 0x00 0x01 0xAF 0x12 (by decide) (by decide) (by decide)
  exact ⟨by decide, by decide, by decide, h.1, h.2.2.1, h.2.2.2⟩

/-- C8, as stated: `SetFamily(f)` followed by `Family()` returns `f` for every unsigned
`f`.  It fails at `f = 65538`, where the 16-bit field keeps 2. -/
theorem Family_SetFamily_counterexample :
    (garbage.SetFamily 65538).Family = 2
      ∧ ¬ (∀ (r : SockAddr) (f : Nat), f < 2 ^ 32 → (r.SetFamily f).Family = f) := by
  refine ⟨by decide, fun h => ?_⟩
  have h2 := h garbage 65538 (by decide)
  revert h2
  decide

/-- C8, amended: for every family tag `f` that fits the 16-bit family field,
`SetFamily(f)` followed by `Family()` returns `f`, and the field holds `f` itself, with no
byte-order conversion; for any unsigned argument `g`, `Family()` returns `g mod 2^16`. -/
theorem Family_SetFamily (r : SockAddr) (f : Nat) (hf : f < 2 ^ 16) :
    (r.SetFamily f).Family = f
      ∧ (r.SetFamily f).sa.sin_family = f
      ∧ ∀ g, (r.SetFamily g).Family = g % 2 ^ 16 := by
  refine ⟨?_, ?_, fun g => rfl⟩
  · exact Nat.mod_eq_of_lt hf
  · exact Nat.mod_eq_of_lt hf

theorem Family_SetFamily_witness :
    2 < 2 ^ 16 ∧ (garbage.SetFamily 2).Family = 2 :=
  ⟨by decide, (Family_SetFamily garbage 2 (by decide)).1⟩

/-- C9: the record built by `New(port, address)` has the family `AF_INET`,
`Port() == port`, `Addr() == address` and 8 zero padding bytes, so `IsValid()` is true,
for every port in [0, 65535] and every 32-bit address; the default `New()` has
`Addr() == 0`, `Port() == 0`, `IsValid()` true and `IsMulticast()` false, and
`New(44818, 0xE0000001)` is multicast. -/
theorem New_fields (AF_INET : Nat) (e : Endian) (port address : Nat)
    (hp : port ≤ 65535) (ha : address ≤ 2 ^ 32 - 1) :
    (SockAddr.New AF_INET e port address).Family = AF_INET
      ∧ (SockAddr.New AF_INET e port address).Port e = port
      ∧ (SockAddr.New AF_INET e port address).Addr e = address
      ∧ (∀ i, i < 8 → (SockAddr.New AF_INET e port address).sa.sin_zero[i]? = some 0)
      ∧ (SockAddr.New AF_INET e port address).IsValid AF_INET = some true
      ∧ (SockAddr.New AF_INET e 0 INADDR_ANY).Addr e = 0
      ∧ (SockAddr.New AF_INET e 0 INADDR_ANY).Port e = 0
      ∧ (SockAddr.New AF_INET e 0 INADDR_ANY).IsValid AF_INET = some true
      ∧ (SockAddr.New AF_INET e 0 INADDR_ANY).IsMulticast e = false
      ∧ (SockAddr.New AF_INET e 44818 0xE0000001).IsMulticast e = true := by
  have hport : ∀ q, q ≤ 65535 → (SockAddr.New AF_INET e q address).Port e = q := by
    intro q hq
    simp only [SockAddr.Port, SockAddr.New, ntohs_htons]
    omega
  have haddr : ∀ q b, b ≤ 2 ^ 32 - 1 → (SockAddr.New AF_INET e q b).Addr e = b := by
    intro q b hb
    simp only [SockAddr.Addr, SockAddr.New, ntohl_htonl]
    omega
  have hvalid : ∀ q b, (SockAddr.New AF_INET e q b).IsValid AF_INET = some true := by
    intro q b
    simp [SockAddr.IsValid, SockAddr.New, memcmp, cmpBytes]
  have hpad : ∀ i, i < 8 → (SockAddr.New AF_INET e port address).sa.sin_zero[i]? = some 0 := by
    intro i hi
    simp only [SockAddr.New]
    interval_cases i <;> rfl
  have h0 : (SockAddr.New AF_INET e 0 INADDR_ANY).Addr e = 0 := haddr 0 INADDR_ANY (by decide)
  have hm : ∀ b, b ≤ 2 ^ 32 - 1 → (SockAddr.New AF_INET e 44818 b).IsMulticast e
      = ((0xf0000000 &&& b) == 0xe0000000) := by
    intro b hb
    simp only [SockAddr.IsMulticast, haddr 44818 b hb]
  refine ⟨rfl, hport port hp, haddr port address ha, hpad, hvalid _ _, h0,
    ?_, hvalid _ _, ?_, ?_⟩
  · simp only [SockAddr.Port, SockAddr.New, ntohs_htons]
    decide
  · simp only [SockAddr.IsMulticast, h0]
    decide
  · rw [hm _ (by decide)]
    decide

theorem New_fields_witness :
    44818 ≤ 65535 ∧ 0xC0A80001 ≤ 2 ^ 32 - 1
      ∧ (SockAddr.New 2 Endian.little 44818 0xC0A80001).Port Endian.little = 44818
      ∧ (SockAddr.New 2 Endian.little 44818 0xC0A80001).Addr Endian.little = 0xC0A80001
      ∧ (SockAddr.New 2 Endian.little 44818 0xC0A80001).IsValid 2 = some true := by
  have h := New_fields 2 Endian.little 44818 0xC0A80001 (by decide) (by decide)
  exact ⟨by decide, by decide, h.2.1, h.2.2.1, h.2.2.2.2.1⟩

/-- C10: `IsValid()` and `IsMulticast()` return a boolean for every record; with
checked reads of the padding array, the 7 bytes from `sin_zero[0]`, the 7 bytes from
`sin_zero[1]` and `sin_zero[0]` itself all lie inside the 8-byte array, so `IsValid`
never takes the out-of-bounds branch. -/
theorem IsValid_IsMulticast_total (AF_INET : Nat) (e : Endian) (r : SockAddr) (h : r.sa.WF) :
    (∃ b, r.IsValid AF_INET = some b)
      ∧ (r.IsMulticast e = true ∨ r.IsMulticast e = false)
      ∧ (∀ i, i < 7 → 0 + i < 8 ∧ ∃ b, r.sa.sin_zero[0 + i]? = some b)
      ∧ (∀ i, i < 7 → 1 + i < 8 ∧ ∃ b, r.sa.sin_zero[1 + i]? = some b)
      ∧ (∃ b, r.sa.sin_zero[0]? = some b)
      ∧ (∃ c, memcmp r.sa.sin_zero 0 1 7 = some c) := by
  have hlen : r.sa.sin_zero.length = 8 := h.2.2.2.1
  have hget : ∀ j, j < 8 → ∃ b, r.sa.sin_zero[j]? = some b := by
    intro j hj
    exact ⟨r.sa.sin_zero[j], List.getElem?_eq_getElem (by omega)⟩
  obtain ⟨b, hb, _⟩ := IsValid_eq AF_INET r hlen
  refine ⟨⟨b, hb⟩, ?_, ?_, ?_, hget 0 (by omega), ?_⟩
  · cases r.IsMulticast e
    · exact Or.inr rfl
    · exact Or.inl rfl
  · intro i hi
    exact ⟨by omega, hget _ (by omega)⟩
  · intro i hi
    exact ⟨by omega, hget _ (by omega)⟩
  · exact ⟨_, if_pos (by rw [hlen]; omega)⟩

theorem IsValid_IsMulticast_total_witness :
    garbage.sa.WF ∧ (∃ b, garbage.IsValid 2 = some b)
      ∧ (∃ c, memcmp garbage.sa.sin_zero 0 1 7 = some c) := by
  have h := IsValid_IsMulticast_total 2 Endian.little garbage (by decide)
  exact ⟨by decide, h.1, h.2.2.2.2.2⟩

/-- The padding check is the part of `IsValid` behind the family test. -/
theorem IsValid_eq_paddingCheck (AF_INET : Nat) (r : SockAddr) :
    r.IsValid AF_INET
      = if r.sa.sin_family = AF_INET then paddingCheck r.sa.sin_zero else some false := by
  unfold SockAddr.IsValid paddingCheck
  rfl

/-- Neighbouring positions agree exactly when the chain of neighbour equalities holds. -/
theorem neighbours_iff (z0 z1 z2 z3 z4 z5 z6 z7 : Nat) :
    (∀ i, i < 7 → [z0, z1, z2, z3, z4, z5, z6, z7][i]? = [z0, z1, z2, z3, z4, z5, z6, z7][i + 1]?)
      ↔ z0 = z1 ∧ z1 = z2 ∧ z2 = z3 ∧ z3 = z4 ∧ z4 = z5 ∧ z5 = z6 ∧ z6 = z7 := by
  constructor
  · intro h
    have h0 := h 0 (by omega)
    have h1 := h 1 (by omega)
    have h2 := h 2 (by omega)
    have h3 := h 3 (by omega)
    have h4 := h 4 (by omega)
    have h5 := h 5 (by omega)
    have h6 := h 6 (by omega)
    simp at h0 h1 h2 h3 h4 h5 h6
    exact ⟨h0, h1, h2, h3, h4, h5, h6⟩
  · rintro ⟨rfl, rfl, rfl, rfl, rfl, rfl, rfl⟩ i hi
    interval_cases i <;> rfl

/-- Every position agrees with position 0 exactly when bytes 1..7 equal byte 0. -/
theorem all_equal_first_iff (z0 z1 z2 z3 z4 z5 z6 z7 : Nat) :
    (∀ i, i < 8 → [z0, z1, z2, z3, z4, z5, z6, z7][i]? = [z0, z1, z2, z3, z4, z5, z6, z7][0]?)
      ↔ z1 = z0 ∧ z2 = z0 ∧ z3 = z0 ∧ z4 = z0 ∧ z5 = z0 ∧ z6 = z0 ∧ z7 = z0 := by
  constructor
  · intro h
    have h1 := h 1 (by omega)
    have h2 := h 2 (by omega)
    have h3 := h 3 (by omega)
    have h4 := h 4 (by omega)
    have h5 := h 5 (by omega)
    have h6 := h 6 (by omega)
    have h7 := h 7 (by omega)
    simp at h1 h2 h3 h4 h5 h6 h7
    exact ⟨h1, h2, h3, h4, h5, h6, h7⟩
  · rintro ⟨rfl, rfl, rfl, rfl, rfl, rfl, rfl⟩ i hi
    interval_cases i <;> rfl

theorem specAllBytesZero_iff (z0 z1 z2 z3 z4 z5 z6 z7 : Nat) :
    specAllBytesZero [z0, z1, z2, z3, z4, z5, z6, z7] = true
      ↔ z0 = 0 ∧ z1 = 0 ∧ z2 = 0 ∧ z3 = 0 ∧ z4 = 0 ∧ z5 = 0 ∧ z6 = 0 ∧ z7 = 0 := by
  simp [specAllBytesZero]

/-- The code's padding check returns what the spec's simpler check returns. -/
theorem paddingCheck_eq_spec (z : List Nat) (hz : z.length = 8) :
    paddingCheck z = some (specAllBytesZero z) := by
  obtain ⟨z0, z1, z2, z3, z4, z5, z6, z7, rfl⟩ := length_eq_eight hz
  obtain ⟨c, hc, hc0⟩ := memcmp_padding z0 z1 z2 z3 z4 z5 z6 z7
  have hs := specAllBytesZero_iff z0 z1 z2 z3 z4 z5 z6 z7
  unfold paddingCheck
  rw [hc]
  by_cases hcz : c = 0
  · have hchain := hc0.1 hcz
    by_cases h0 : z0 = 0
    · have : specAllBytesZero [z0, z1, z2, z3, z4, z5, z6, z7] = true := hs.2 (by omega)
      rw [this]
      simp [hcz, h0]
    · have : specAllBytesZero [z0, z1, z2, z3, z4, z5, z6, z7] = false := by
        cases hb : specAllBytesZero [z0, z1, z2, z3, z4, z5, z6, z7]
        · rfl
        · exact absurd (hs.1 hb).1 h0
      rw [this]
      simp [hcz, h0]
  · have : specAllBytesZero [z0, z1, z2, z3, z4, z5, z6, z7] = false := by
      cases hb : specAllBytesZero [z0, z1, z2, z3, z4, z5, z6, z7]
      · rfl
      · exact absurd (hc0.2 (by have := hs.1 hb; omega)) hcz
    rw [this]
    simp [hcz]

/-- C11: for every 8-byte padding array `z`, the overlapping comparison of `IsValid`
(`memcmp` of `z[0..6]` against `z[1..7]` returning zero, that is `z[i] == z[i+1]` for
every `i` in 0..6) holds if and only if all 8 bytes are equal (bytes 1..7 equal byte 0);
together with `z[0] == 0` it is equivalent to the simpler check "all 8 bytes are zero",
so the code's padding check and `IsValid` return what the simpler wording returns. -/
theorem overlapping_memcmp_iff_all_equal (z : List Nat) (hz : z.length = 8) :
    (memcmp z 0 1 7 = some 0 ↔ ∀ i, i < 7 → z[i]? = z[i + 1]?)
      ∧ (memcmp z 0 1 7 = some 0 ↔ ∀ i, i < 8 → z[i]? = z[0]?)
      ∧ ((memcmp z 0 1 7 = some 0 ∧ z[0]? = some 0) ↔ specAllBytesZero z = true)
      ∧ paddingCheck z = some (specAllBytesZero z)
      ∧ (∀ (AF_INET : Nat) (r : SockAddr), r.sa.sin_zero = z →
          r.IsValid AF_INET = some (specIsValid AF_INET r)) := by
  have hpc := paddingCheck_eq_spec z hz
  refine ⟨?_, ?_, ?_, hpc, ?_⟩
  · obtain ⟨z0, z1, z2, z3, z4, z5, z6, z7, rfl⟩ := length_eq_eight hz
    obtain ⟨c, hc, hc0⟩ := memcmp_padding z0 z1 z2 z3 z4 z5 z6 z7
    rw [neighbours_iff, hc, Option.some.injEq]
    exact hc0
  · obtain ⟨z0, z1, z2, z3, z4, z5, z6, z7, rfl⟩ := length_eq_eight hz
    obtain ⟨c, hc, hc0⟩ := memcmp_padding z0 z1 z2 z3 z4 z5 z6 z7
    rw [all_equal_first_iff, hc, Option.some.injEq, hc0]
    constructor <;> intro h <;> omega
  · obtain ⟨z0, z1, z2, z3, z4, z5, z6, z7, rfl⟩ := length_eq_eight hz
    obtain ⟨c, hc, hc0⟩ := memcmp_padding z0 z1 z2 z3 z4 z5 z6 z7
    rw [specAllBytesZero_iff, hc, Option.some.injEq, hc0]
    simp only [List.getElem?_cons_zero, Option.some.injEq]
    constructor <;> intro h <;> omega
  · intro AF_INET r hr
    rw [IsValid_eq_paddingCheck, hr, hpc]
    unfold specIsValid
    rw [hr]
    by_cases hf : r.sa.sin_family = AF_INET
    · simp [hf]
    · simp [hf]

theorem overlapping_memcmp_iff_all_equal_witness :
    garbage.sa.sin_zero.length = 8
      ∧ paddingCheck garbage.sa.sin_zero = some (specAllBytesZero garbage.sa.sin_zero)
      ∧ specAllBytesZero garbage.sa.sin_zero = false
      ∧ sample.IsValid 2 = some (specIsValid 2 sample)
      ∧ specIsValid 2 sample = true := by
  have hg := overlapping_memcmp_iff_all_equal garbage.sa.sin_zero (by decide)
  have hs := overlapping_memcmp_iff_all_equal sample.sa.sin_zero (by decide)
  exact ⟨by decide, hg.2.2.2.1, by decide, hs.2.2.2.2 2 sample rfl, by decide⟩

/-- C12: each setter changes only its own field: `SetPort` leaves the stored address,
family and padding unchanged, `SetAddr` leaves the stored port, family and padding
unchanged, `SetFamily` leaves the stored port, address and padding unchanged; so
`IsValid()` is unchanged by `SetPort` and `SetAddr`, and `IsMulticast()` is unchanged by
`SetPort` and `SetFamily`. -/
theorem setters_change_own_field_only (AF_INET : Nat) (e e2 : Endian) (r : SockAddr) (v : Nat) :
    ((r.SetPort e v).sa.sin_addr = r.sa.sin_addr
        ∧ (r.SetPort e v).sa.sin_family = r.sa.sin_family
        ∧ (r.SetPort e v).sa.sin_zero = r.sa.sin_zero)
      ∧ ((r.SetAddr e v).sa.sin_port = r.sa.sin_port
        ∧ (r.SetAddr e v).sa.sin_family = r.sa.sin_family
        ∧ (r.SetAddr e v).sa.sin_zero = r.sa.sin_zero)
      ∧ ((r.SetFamily v).sa.sin_port = r.sa.sin_port
        ∧ (r.SetFamily v).sa.sin_addr = r.sa.sin_addr
        ∧ (r.SetFamily v).sa.sin_zero = r.sa.sin_zero)
      ∧ (r.SetPort e v).IsValid AF_INET = r.IsValid AF_INET
      ∧ (r.SetAddr e v).IsValid AF_INET = r.IsValid AF_INET
      ∧ (r.SetPort e v).IsMulticast e2 = r.IsMulticast e2
      ∧ (r.SetFamily v).IsMulticast e2 = r.IsMulticast e2 :=
  ⟨⟨rfl, rfl, rfl⟩, ⟨rfl, rfl, rfl⟩, ⟨rfl, rfl, rfl⟩, rfl, rfl, rfl, rfl⟩

/-- C13: for every unsigned argument `v`, also above 65535, `SetPort(v)` followed by
`Port()` returns `v mod 65536`, and for every record `Port()` lies in [0, 65535]. -/
theorem SetPort_keeps_low_16_bits (e : Endian) (r : SockAddr) (v : Nat) :
    (r.SetPort e v).Port e = v % 65536
      ∧ 0 ≤ r.Port e ∧ r.Port e ≤ 65535
      ∧ (r.SetPort e (65536 + 80)).Port e = 80 := by
  have hp : ∀ w, (r.SetPort e w).Port e = w % 65536 := by
    intro w
    simp only [SockAddr.Port, SockAddr.SetPort, ntohs_htons]
    rfl
  have hlt : r.Port e < 2 ^ 16 := ntohs_lt e _
  refine ⟨hp v, Nat.zero_le _, by omega, ?_⟩
  rw [hp]

/-- C14: `operator==` is an equivalence relation on records (reflexive, symmetric,
transitive) and `operator!=` is its negation: `x != y` is true if and only if `x == y`
is false. -/
theorem operator_eq_equivalence (x y z : SockAddr) :
    x.operator_eq x = true
      ∧ (x.operator_eq y = true → y.operator_eq x = true)
      ∧ x.operator_eq y = y.operator_eq x
      ∧ (x.operator_eq y = true → y.operator_eq z = true → x.operator_eq z = true)
      ∧ (x.operator_ne y = true ↔ x.operator_eq y = false)
      ∧ x.operator_ne y = !(x.operator_eq y) := by
  have hiff : ∀ a b : SockAddr, a.operator_eq b = true
      ↔ a.sa.sin_addr.s_addr = b.sa.sin_addr.s_addr ∧ a.sa.sin_port = b.sa.sin_port := by
    intro a b
    simp only [SockAddr.operator_eq, Bool.and_eq_true, beq_iff_eq]
  have hsymm : ∀ a b : SockAddr, a.operator_eq b = true → b.operator_eq a = true := by
    intro a b hab
    obtain ⟨h1, h2⟩ := (hiff a b).1 hab
    exact (hiff b a).2 ⟨h1.symm, h2.symm⟩
  refine ⟨(hiff x x).2 ⟨rfl, rfl⟩, hsymm x y, ?_, ?_, ?_, rfl⟩
  · cases hxy : x.operator_eq y
    · cases hyx : y.operator_eq x
      · rfl
      · rw [hsymm y x hyx] at hxy
        exact absurd hxy (by decide)
    · exact (hsymm x y hxy).symm
  · intro hxy hyz
    obtain ⟨a1, p1⟩ := (hiff x y).1 hxy
    obtain ⟨a2, p2⟩ := (hiff y z).1 hyz
    exact (hiff x z).2 ⟨a1.trans a2, p1.trans p2⟩
  · unfold SockAddr.operator_ne
    cases x.operator_eq y <;> simp

theorem operator_eq_equivalence_witness :
    sample.operator_eq garbage = true
      ∧ garbage.operator_eq (garbage.SetFamily 2) = true
      ∧ garbage.operator_eq sample = true
      ∧ sample.operator_eq (garbage.SetFamily 2) = true := by
  have hsg : sample.operator_eq garbage = true := by decide
  have hgf : garbage.operator_eq (garbage.SetFamily 2) = true := by decide
  exact ⟨hsg, hgf, (operator_eq_equivalence sample garbage (garbage.SetFamily 2)).2.1 hsg,
    (operator_eq_equivalence sample garbage (garbage.SetFamily 2)).2.2.2.1 hsg hgf⟩

end CIPster
